import Mathlib

/-!
# debiman auxserver: the bootstrap of `cmd/debiman-auxserver/aux.go`

A shallow embedding of `main`: the startup sequence (flags, asset injection,
index load, server construction, handler registration, listener), the SIGHUP
reload loop, the routing table, and the step relation of the reload path.

External calls (`redirect.IndexFromProto`, `bundled.Inject`,
`http.ListenAndServe`, ...) are represented by the value they return, supplied
by the environment; every call and every log line is recorded in a trace of
events, in program order.
-/

namespace Debiman

/-! ## Data model -/

/-- Go `error` values, identified by their message. -/
abbrev Error := String

/-- Modelled from the spec: an Entry of section 3 (the entry type of
`internal/redirect` is not among the sources): one resolvable identity with
its canonical URL. -/
structure Entry where
  Name : String
  Section : String
  Suite : String
  Language : String
  URL : String
deriving DecidableEq, Repr

/-- Modelled from the spec: the Index of section 3 (`redirect.Index` is declared
in `internal/redirect`, which is not among the sources; `main` only takes the
`len` of its fields `Entries`, `Suites` and `Langs`). The mapping keyed by
`(Name, Section)` is an association list, the suite and language lists are
ordered and carry their designated default. -/
structure Index where
  Entries : List ((String × String) × List Entry)
  Suites : List String
  DefaultSuite : String
  Langs : List String
  DefaultLang : String
deriving DecidableEq, Repr

/-- Modelled from the spec: the invariants of section 3. Suite and language
lists are nonempty, have distinct members and contain their default; every
Entry is filed under its own `(Name, Section)` key and its Suite and Language
appear in the Index's own lists. -/
def Index.valid (idx : Index) : Bool :=
  decide (idx.Suites ≠ []) && decide idx.Suites.Nodup && decide (idx.DefaultSuite ∈ idx.Suites)
    && decide (idx.Langs ≠ []) && decide idx.Langs.Nodup && decide (idx.DefaultLang ∈ idx.Langs)
    && idx.Entries.all (fun kv => kv.2.all (fun e =>
        decide (e.Name = kv.1.1) && decide (e.Section = kv.1.2)
          && decide (e.Suite ∈ idx.Suites) && decide (e.Language ∈ idx.Langs)))

/-- Modelled from the spec: the IndexStore of section 4.2, which is what
`aux.Server` (package `internal/aux`, not among the sources) is to `main`: one
active Index reference and a monotonically increasing epoch. -/
structure Server where
  active : Index
  epoch : Nat
deriving DecidableEq, Repr

/-- Modelled from the spec: `aux.NewServer` makes the Index loaded at startup
the active one; the epoch starts at 0. -/
def NewServer (idx : Index) : Server :=
  { active := idx, epoch := 0 }

/-- Modelled from the spec: `CurrentSnapshot() -> (Index, epoch)` of section 4.2. -/
def Server.CurrentSnapshot (s : Server) : Index × Nat :=
  (s.active, s.epoch)

/-- Modelled from the spec: `Swap(newIndex) -> ok | RejectedError` of section
4.2, the `server.SwapIndex` of `main`. A valid Index replaces the active
reference and the epoch is incremented; an invalid one leaves the store
untouched and an error is returned. The result is the returned error (`none`
for Go's `nil`) and the store afterwards. -/
def Server.SwapIndex (newIndex : Index) (s : Server) : Option Error × Server :=
  if newIndex.valid then
    (none, { active := newIndex, epoch := s.epoch + 1 })
  else
    (some "RejectedError", s)

/-! ## Events of `main` -/

/-- The three handlers `main` registers (methods of `aux.Server`). -/
inductive Handler where
  | HandleJump
  | HandleSuggest
  | HandleRedirect
deriving DecidableEq, Repr

/-- The `log.Printf` lines of `main`, with their arguments. -/
inductive LogLine where
  /-- Line 44: "debiman auxserver loading index from %q". -/
  | loadingIndex (path : String)
  /-- Line 65: "SIGHUP received, trying to reload index". -/
  | sighupReceived
  /-- Line 69: "Could not load new index from %q: %v". -/
  | couldNotLoad (path : String) (err : Error)
  /-- Line 73: "Loaded %d manpage entries, %d suites, %d languages from new index %q". -/
  | loadedNew (entries suites langs : Nat) (path : String)
  /-- Line 77: "Swapping index failed: %v". -/
  | swapFailed (err : Error)
  /-- Line 81: "Index swapped". -/
  | indexSwapped
  /-- Line 98: "Loaded %d manpage entries, %d suites, %d languages from index %q". -/
  | loaded (entries suites langs : Nat) (path : String)
  /-- Line 101: "Starting HTTP listener on %q". -/
  | startingListener (addr : String)
deriving DecidableEq, Repr

/-- What `main` and its reload goroutine do, one event per call or log line. -/
inductive Event where
  | log (line : LogLine)
  /-- A call of `log.Fatal(err)`: the message is printed and the process exits. -/
  | fatal (err : Error)
  /-- A `Must` helper panicked: the process dies. -/
  | panicked
  | callInject (dir : String)
  | callIndexFromProto (path : String)
  | callMustParseCommonTmpls
  | callAsset (name : String)
  | callNewServer (idx : Index)
  /-- Lines 61-62: `make(chan os.Signal, cap)` and `signal.Notify(c, syscall.SIGHUP)`. -/
  | signalNotify (cap : Nat)
  /-- Line 63: the `go func()` statement that starts the reload loop. -/
  | goReloadLoop
  | callBaseURLPath
  | handleFunc (pattern : String) (h : Handler)
  /-- Line 96: `http.Handle(pattern, http.StripPrefix(basePath, mux))`. -/
  | httpHandle (pattern : String) (basePath : String)
  | callListenAndServe (addr : String)
  | callSwapIndex (idx : Index)
  | freeOSMemory
deriving DecidableEq, Repr

/-- The event is a log line. -/
def Event.isLog : Event → Bool
  | .log _ => true
  | _ => false

/-- The event is the counts line of the reload loop (line 73). -/
def Event.isCountsLine : Event → Bool
  | .log (.loadedNew _ _ _ _) => true
  | _ => false

/-- The event is a call of `server.SwapIndex`. -/
def Event.isSwapCall : Event → Bool
  | .callSwapIndex _ => true
  | _ => false

/-- The event is a call of `redirect.IndexFromProto`. -/
def Event.isLoadCall : Event → Bool
  | .callIndexFromProto _ => true
  | _ => false

/-- The event ends the process (`log.Fatal` or a panic). -/
def Event.isExit : Event → Bool
  | .fatal _ => true
  | .panicked => true
  | _ => false

/-! ## The reload loop (lines 63-89) -/

/-- How the body of a Go `for` loop hands control back. -/
inductive Ctl where
  /-- A `continue` statement. -/
  | cont
  /-- The end of the body was reached. -/
  | bodyEnd
  /-- A `break` or `return`: the loop is left. -/
  | brk
  /-- The process was ended (`log.Fatal`, `os.Exit`, panic). -/
  | halt
deriving DecidableEq, Repr

/-- One iteration of `for _ = range c` (lines 65-87), run for one trigger
received from the channel. `load` is what `redirect.IndexFromProto(*indexPath)`
returns in this iteration, `swapIndex` is the server's `SwapIndex` method
acting on the server state `σ`. The result is the server afterwards, the
events of the iteration and how the body ended. -/
def reloadBody {σ : Type} (indexPath : String) (swapIndex : Index → σ → Option Error × σ)
    (load : Except Error Index) (server : σ) : σ × List Event × Ctl :=
  let t0 := [Event.log .sighupReceived, Event.callIndexFromProto indexPath]
  match load with
  | .error err =>
    (server, t0 ++ [Event.log (.couldNotLoad indexPath err)], Ctl.cont)
  | .ok newidx =>
    let t1 := t0 ++ [Event.log (.loadedNew newidx.Entries.length newidx.Suites.length
      newidx.Langs.length indexPath), Event.callSwapIndex newidx]
    match swapIndex newidx server with
    | (some err, server1) =>
      (server1, t1 ++ [Event.log (.swapFailed err)], Ctl.cont)
    | (none, server1) =>
      (server1, t1 ++ [Event.log .indexSwapped, Event.freeOSMemory], Ctl.bodyEnd)

/-- Where the reload goroutine stands once the delivered triggers are used up. -/
inductive LoopStatus where
  /-- Blocked in `range c`, waiting for the next trigger (Idle). -/
  | waiting
  /-- The loop was left and the goroutine returned. -/
  | exited
  /-- The loop ended the process. -/
  | terminated
deriving DecidableEq, Repr

/-- The result of running the reload loop over the delivered triggers. -/
structure LoopResult (σ : Type) where
  server : σ
  trace : List Event
  status : LoopStatus

/-- The loop `for _ = range c { ... }` of lines 64-88 over the triggers
delivered to it, each given as the outcome of its load. The channel is never
closed by `main`, so with no trigger left the goroutine waits. -/
def reloadLoop {σ : Type} (indexPath : String) (swapIndex : Index → σ → Option Error × σ) :
    List (Except Error Index) → σ → LoopResult σ
  | [], server => { server := server, trace := [], status := .waiting }
  | load :: rest, server =>
    match reloadBody indexPath swapIndex load server with
    | (server1, t, Ctl.cont) =>
      let r := reloadLoop indexPath swapIndex rest server1
      { server := r.server, trace := t ++ r.trace, status := r.status }
    | (server1, t, Ctl.bodyEnd) =>
      let r := reloadLoop indexPath swapIndex rest server1
      { server := r.server, trace := t ++ r.trace, status := r.status }
    | (server1, t, Ctl.brk) => { server := server1, trace := t, status := .exited }
    | (server1, t, Ctl.halt) => { server := server1, trace := t, status := .terminated }

/-! ## The startup sequence of `main` (lines 41-103) -/

/-- The command-line flags (lines 20-36), with their defaults. -/
structure Flags where
  indexPath : String := "/srv/man/auxserver.idx"
  listenAddr : String := "localhost:2431"
  injectAssets : String := ""
  baseURL : String := "https://manpages.debian.org"
deriving DecidableEq, Repr

/-- What the external calls of the startup sequence return. -/
structure StartupEnv where
  /-- The error of `bundled.Inject(*injectAssets)`, `none` for `nil`. -/
  inject : Option Error
  /-- The result of `redirect.IndexFromProto(*indexPath)` at line 52. -/
  load : Except Error Index
  /-- `commontmpl.MustParseCommonTmpls()` returns (`true`) or panics. -/
  commonTmplsOk : Bool
  /-- `template.Must(...Parse(bundled.Asset("notfound.tmpl")))` returns or panics. -/
  notFoundTmplOk : Bool
  /-- The value of `commontmpl.BaseURLPath()`. -/
  basePath : String
  /-- What `http.ListenAndServe` returns: `some err` when it returns (it only
  returns with an error, such as a failure to bind), `none` when it keeps
  serving. -/
  listen : Option Error

/-- How the startup sequence ends. -/
inductive Outcome where
  /-- The process was ended by `log.Fatal`. -/
  | fatalExit
  /-- The process was ended by a panic of a `Must` helper. -/
  | panicExit
  /-- The process is inside `http.ListenAndServe`, serving requests. -/
  | serving
deriving DecidableEq, Repr

/-- Line 61: the capacity of `make(chan os.Signal, 1)`. -/
def chanCap : Nat := 1

/-- Lines 91-102: routing table, the two log lines, the listener. -/
def mainListen (f : Flags) (env : StartupEnv) (idx : Index) (t : List Event) :
    List Event × Outcome :=
  let t := t ++ [Event.callBaseURLPath,
    Event.handleFunc "/jump" .HandleJump,
    Event.handleFunc "/suggest" .HandleSuggest,
    Event.handleFunc "/" .HandleRedirect,
    Event.httpHandle "/" env.basePath,
    Event.log (.loaded idx.Entries.length idx.Suites.length idx.Langs.length f.indexPath),
    Event.log (.startingListener f.listenAddr),
    Event.callListenAndServe f.listenAddr]
  match env.listen with
  | some err => (t ++ [Event.fatal err], .fatalExit)
  | none => (t, .serving)

/-- Lines 57-89: templates, server construction, signal channel and the start
of the reload goroutine. -/
def mainServer (f : Flags) (env : StartupEnv) (idx : Index) (t : List Event) :
    List Event × Outcome :=
  let t := t ++ [Event.callMustParseCommonTmpls]
  if env.commonTmplsOk then
    let t := t ++ [Event.callAsset "notfound.tmpl"]
    if env.notFoundTmplOk then
      mainListen f env idx
        (t ++ [Event.callNewServer idx, Event.signalNotify chanCap, Event.goReloadLoop])
    else (t ++ [Event.panicked], .panicExit)
  else (t ++ [Event.panicked], .panicExit)

/-- Lines 52-55 and what follows: the index load. -/
def mainLoad (f : Flags) (env : StartupEnv) (t : List Event) : List Event × Outcome :=
  let t := t ++ [Event.callIndexFromProto f.indexPath]
  match env.load with
  | .error err => (t ++ [Event.fatal err], .fatalExit)
  | .ok idx => mainServer f env idx t

/-- The function `main` up to the point where it blocks in the listener or
the process ends: the trace of its events and the outcome. -/
def main (f : Flags) (env : StartupEnv) : List Event × Outcome :=
  let t := [Event.log (.loadingIndex f.indexPath)]
  if f.injectAssets ≠ "" then
    let t := t ++ [Event.callInject f.injectAssets]
    match env.inject with
    | some err => (t ++ [Event.fatal err], .fatalExit)
    | none => mainLoad f env t
  else mainLoad f env t

/-- The event belongs to what `main` does only with a loaded index: server
construction, the reload loop, handler registration, the listener. -/
def Event.needsIndex : Event → Bool
  | .callNewServer _ => true
  | .signalNotify _ => true
  | .goReloadLoop => true
  | .handleFunc _ _ => true
  | .httpHandle _ _ => true
  | .callListenAndServe _ => true
  | _ => false

/-- The event reads a bundled asset (the common templates, `notfound.tmpl`). -/
def Event.readsAsset : Event → Bool
  | .callMustParseCommonTmpls => true
  | .callAsset _ => true
  | _ => false

/-- The event is the call of `bundled.Inject`. -/
def Event.isInject : Event → Bool
  | .callInject _ => true
  | _ => false

/-- The event starts the HTTP listener. -/
def Event.isListen : Event → Bool
  | .callListenAndServe _ => true
  | _ => false

/-! ## The routing table (lines 91-96) -/

/-- Go's `strings.HasPrefix`, on strings as character lists. -/
def HasPrefix (s pfx : List Char) : Bool :=
  pfx.isPrefixOf s

/-- Go's `strings.TrimPrefix`. -/
def TrimPrefix (s pfx : List Char) : List Char :=
  if HasPrefix s pfx then s.drop pfx.length else s

/-- The element loop of Go's `path.Clean`: empty and `.` elements are skipped,
a `..` element removes the element before it, is dropped at the root of a
rooted path and is kept at the start of a relative one. `out` holds the kept
elements, last one first. -/
def cleanElems (rooted : Bool) : List (List Char) → List (List Char) → List (List Char)
  | [], out => out.reverse
  | e :: es, out =>
    if e = [] ∨ e = ['.'] then cleanElems rooted es out
    else if e = ['.', '.'] then
      match out with
      | top :: out1 =>
        if top = ['.', '.'] then cleanElems rooted es (e :: out)
        else cleanElems rooted es out1
      | [] => if rooted then cleanElems rooted es [] else cleanElems rooted es [e]
    else cleanElems rooted es (e :: out)

/-- Go's `path.Clean`: the shortest path name equivalent to `p`. -/
def Clean (p : List Char) : List Char :=
  if p = [] then ['.']
  else
    let rooted := decide (p.head? = some '/')
    let body := [ '/' ].intercalate (cleanElems rooted (p.splitOn '/') [])
    if rooted then '/' :: body
    else if body = [] then ['.'] else body

/-- The `cleanPath` of `net/http`: the canonical form of a request path, rooted
and cleaned, with a trailing slash kept. -/
def cleanPath (p : List Char) : List Char :=
  if p = [] then ['/']
  else
    let p := if p.head? ≠ some '/' then '/' :: p else p
    let np := Clean p
    if p.getLast? = some '/' ∧ np ≠ ['/'] then
      if p.length = np.length + 1 ∧ HasPrefix p np then p else np ++ ['/']
    else np

/-- A request as the server hands it to its handler, as far as routing looks
at it: the method, the request URI as it was sent, and `URL.Path` and
`URL.RawPath` (empty unless the path needs a non-default encoding). -/
structure Request where
  Method : String
  RequestURI : String
  Path : List Char
  RawPath : List Char
deriving DecidableEq, Repr

/-- How a request is answered. -/
inductive Response where
  /-- The request was passed to one of the server's handlers. -/
  | served (h : Handler)
  /-- 404 from `http.NotFound`, without any handler of the server. -/
  | notFound
  /-- 301 to the given location, written by the mux itself. -/
  | movedPermanently (location : List Char)
  /-- 400, written by the mux for the request URI `*`. -/
  | badRequest
  /-- The empty 200 of the server's own handler for `OPTIONS *`. -/
  | optionsOK
deriving DecidableEq, Repr

/-- Go's `http.ServeMux`: the registered patterns with their handlers, in
registration order. -/
structure ServeMux where
  m : List (List Char × (Request → Response))

/-- Go's `http.NewServeMux`. -/
def NewServeMux : ServeMux :=
  { m := [] }

/-- Go's `ServeMux.Handle` / `ServeMux.HandleFunc`. -/
def ServeMux.Handle (mux : ServeMux) (pattern : String) (h : Request → Response) : ServeMux :=
  { m := mux.m ++ [(pattern.toList, h)] }

/-- The handler registered for exactly `path`, if any (`mux.m[path]`). -/
def ServeMux.exact (mux : ServeMux) (path : List Char) : Option (Request → Response) :=
  (mux.m.find? (fun e => decide (e.1 = path))).map (fun e => e.2)

/-- The patterns ending in a slash, longest first (`mux.es`). -/
def ServeMux.es (mux : ServeMux) : List (List Char × (Request → Response)) :=
  (mux.m.filter (fun e => decide (e.1.getLast? = some '/'))).insertionSort
    (fun a b => a.1.length ≥ b.1.length)

/-- The `match` of `ServeMux`: an exact match first, then the longest
pattern ending in a slash that the path begins with. -/
def ServeMux.matchPath (mux : ServeMux) (path : List Char) : Option (Request → Response) :=
  match mux.exact path with
  | some h => some h
  | none => ((mux.es).find? (fun e => HasPrefix path e.1)).map (fun e => e.2)

/-- The `shouldRedirect` of `ServeMux`: `path` is not registered but `path/` is. -/
def ServeMux.shouldRedirect (mux : ServeMux) (path : List Char) : Bool :=
  if (mux.exact path).isSome then false
  else if path = [] then false
  else if (mux.exact (path ++ ['/'])).isSome then decide (path.getLast? ≠ some '/')
  else false

/-- Go's `ServeMux.ServeHTTP` (the mux of `net/http` before the pattern
rewrite of Go 1.22). The request URI `*` is answered 400. For a CONNECT request
the path is taken as it stands; for any other request the path is cleaned and
a path that is not in clean form is answered with a 301 to the clean path. A
path naming a registered subtree without its slash is answered with a 301 to
the subtree. Otherwise the matching handler runs, `http.NotFound` when none
matches. -/
def ServeMux.ServeHTTP (mux : ServeMux) (r : Request) : Response :=
  if r.RequestURI = "*" then .badRequest
  else if r.Method = "CONNECT" then
    if mux.shouldRedirect r.Path then .movedPermanently (r.Path ++ ['/'])
    else
      match mux.matchPath r.Path with
      | some h => h r
      | none => .notFound
  else
    let path := cleanPath r.Path
    if mux.shouldRedirect path then .movedPermanently (path ++ ['/'])
    else if path ≠ r.Path then .movedPermanently path
    else
      match mux.matchPath r.Path with
      | some h => h r
      | none => .notFound

/-- Go's `http.StripPrefix`: requests whose path (and raw path, when set)
begins with `pfx` reach `h` with the beginning removed, all others are
answered 404; with an empty `pfx` the result is `h` itself. -/
def StripPrefix (pfx : List Char) (h : Request → Response) : Request → Response :=
  if pfx = [] then h
  else fun r =>
    let p := TrimPrefix r.Path pfx
    let rp := TrimPrefix r.RawPath pfx
    if p.length < r.Path.length ∧ (r.RawPath = [] ∨ rp.length < r.RawPath.length) then
      h { r with Path := p, RawPath := rp }
    else .notFound

/-- The handler a `net/http` server started with a `nil` handler runs for
every request it has read: its own reply to `OPTIONS *`, the default mux for
everything else. -/
def serverHandler (defaultMux : ServeMux) (r : Request) : Response :=
  if r.RequestURI = "*" ∧ r.Method = "OPTIONS" then .optionsOK
  else defaultMux.ServeHTTP r

/-- Lines 92-95: the mux of `main` with its three patterns. -/
def mux : ServeMux :=
  ((NewServeMux.Handle "/jump" (fun _ => .served .HandleJump)).Handle
    "/suggest" (fun _ => .served .HandleSuggest)).Handle
    "/" (fun _ => .served .HandleRedirect)

/-- Line 96: `http.Handle("/", http.StripPrefix(basePath, mux))` on the
default mux, which `http.ListenAndServe(addr, nil)` serves. -/
def DefaultServeMux (basePath : List Char) : ServeMux :=
  NewServeMux.Handle "/" (StripPrefix basePath mux.ServeHTTP)

/-- The answer of the routing table of `main` to a request: what
`http.ListenAndServe(*listenAddr, nil)` of line 102 does with it. -/
def dispatch (basePath : List Char) (r : Request) : Response :=
  serverHandler (DefaultServeMux basePath) r

/-- The routing as the spec words it, to be compared with `dispatch`: `/jump`
goes to the jump handler, `/suggest` to the suggest handler, every other path
to the catch-all. -/
def route (p : List Char) : Handler :=
  if p = "/jump".toList then .HandleJump
  else if p = "/suggest".toList then .HandleSuggest
  else .HandleRedirect

/-- A GET request for a path that needs no escaping. -/
def GET (path : String) : Request :=
  { Method := "GET", RequestURI := path, Path := path.toList, RawPath := [] }

/-- The path `q` of a request with the given method is one a mux matches as it
stands: it begins with a slash when the method is CONNECT (no cleaning), it is
in clean form for every other method. -/
def Canonical (method : String) (q : List Char) : Prop :=
  (method = "CONNECT" ∧ ∃ t, q = '/' :: t) ∨ (method ≠ "CONNECT" ∧ cleanPath q = q)

/-- The requests the routing table hands to a handler of the server, with the
rest `p` of the path after the base path: the request URI is not `*`, the path
is the base path followed by `p` (and the raw path, when it is set and the base
path is not empty, begins with the base path too), and the path and `p` are
both as the mux matches them. -/
def Routable (basePath : List Char) (r : Request) (p : List Char) : Prop :=
  r.RequestURI ≠ "*" ∧ r.Path = basePath ++ p ∧
  (basePath = [] ∨ r.RawPath = [] ∨ ∃ rp, r.RawPath = basePath ++ rp) ∧
  Canonical r.Method r.Path ∧ Canonical r.Method p

/-! ## The reload path as a step relation (lines 61-89) -/

/-- Where the reload goroutine stands. -/
inductive Worker where
  /-- Blocked in `range c` (Idle). -/
  | recv
  /-- Inside `redirect.IndexFromProto` (Loading). -/
  | loading
  /-- Inside `server.SwapIndex(newidx)` (Validating). -/
  | swapping (newidx : Index)
deriving DecidableEq, Repr

/-- A load or swap that has been started and has not returned yet. -/
inductive Op where
  | load
  | swap (newidx : Index)
deriving DecidableEq, Repr

/-- The state of the reload path: the signals buffered in the channel `c`
(the pending reloads), the position of the one goroutine started at line 63,
the loads and swaps in progress, and the server. -/
structure ReloadPath (σ : Type) where
  chan : List Unit
  worker : Worker
  running : List Op
  server : σ

/-- What can happen on the reload path. -/
inductive Action where
  /-- A SIGHUP arrives: package `signal` sends on `c` without blocking. -/
  | trigger
  /-- The goroutine receives from `c` and calls `redirect.IndexFromProto`. -/
  | recv
  /-- The call of `redirect.IndexFromProto` returns. -/
  | loadReturn (res : Except Error Index)
  /-- The call of `server.SwapIndex` returns. -/
  | swapReturn
deriving Repr

/-- The state when the goroutine has been started: nothing pending, the
worker waiting, nothing in progress. -/
def ReloadPath.init {σ : Type} (server : σ) : ReloadPath σ :=
  { chan := [], worker := .recv, running := [], server := server }

/-- One step of the reload path; `none` when the action cannot happen in the
state. A trigger is buffered when the channel has room and dropped otherwise;
the worker receives only when it waits in `range c`, and after a load error
or after the swap it waits again. -/
def ReloadPath.step {σ : Type} (swapIndex : Index → σ → Option Error × σ)
    (s : ReloadPath σ) : Action → Option (ReloadPath σ)
  | .trigger =>
    if s.chan.length < chanCap then some { s with chan := s.chan ++ [()] } else some s
  | .recv =>
    match s.worker, s.chan with
    | .recv, _ :: rest =>
      some { s with chan := rest, worker := .loading, running := Op.load :: s.running }
    | _, _ => none
  | .loadReturn res =>
    match s.worker with
    | .loading =>
      match res with
      | .error _ => some { s with worker := .recv, running := s.running.erase Op.load }
      | .ok newidx =>
        some { s with worker := .swapping newidx,
                      running := Op.swap newidx :: s.running.erase Op.load }
    | _ => none
  | .swapReturn =>
    match s.worker with
    | .swapping newidx =>
      some { s with worker := .recv, running := s.running.erase (Op.swap newidx),
                    server := (swapIndex newidx s.server).2 }
    | _ => none

/-- The state after a sequence of actions, `none` when one of them cannot happen. -/
def ReloadPath.exec {σ : Type} (swapIndex : Index → σ → Option Error × σ) :
    ReloadPath σ → List Action → Option (ReloadPath σ)
  | s, [] => some s
  | s, a :: rest => (s.step swapIndex a).bind (fun s1 => ReloadPath.exec swapIndex s1 rest)

/-! ## Requests running beside a swap -/

/-- Modelled from the spec: a request handler in flight (the handlers are
methods of `aux.Server` in `internal/aux`, not among the sources). By sections
4.2 and 5 it copies out `CurrentSnapshot()` when it starts and holds that tuple
for the whole operation; `observed` lists what each of its index accesses saw. -/
structure InFlight where
  handler : Handler
  snapshot : Index × Nat
  observed : List (Index × Nat)
deriving DecidableEq, Repr

/-- Modelled from the spec: the steps of request handlers and of the reload
loop's swap, one atomic step each (section 5). -/
inductive ConcAction where
  /-- A request arrives and its handler takes its snapshot. -/
  | start (h : Handler)
  /-- The `i`-th request in flight makes one access to the index. -/
  | access (i : Nat)
  /-- The reload loop calls `server.SwapIndex(newidx)`. -/
  | swap (newidx : Index)
deriving DecidableEq, Repr

/-- The action is a swap. -/
def ConcAction.isSwap : ConcAction → Bool
  | .swap _ => true
  | _ => false

/-- Modelled from the spec: the server with its requests in flight. -/
structure Conc where
  server : Server
  requests : List InFlight
deriving DecidableEq, Repr

/-- Modelled from the spec: one index access of a request in flight. By
section 4.2 the handler holds the tuple it took at its start for the whole
operation, so the access reads through that snapshot. -/
def InFlight.access (q : InFlight) : InFlight :=
  { q with observed := q.observed ++ [q.snapshot] }

/-- Apply `f` to the `i`-th element of a list. -/
def updateAt {α : Type} (f : α → α) : Nat → List α → List α
  | _, [] => []
  | 0, x :: xs => f x :: xs
  | i + 1, x :: xs => x :: updateAt f i xs

/-- Modelled from the spec: one step of the interleaving. -/
def Conc.step (c : Conc) : ConcAction → Conc
  | .start h =>
    { c with requests := c.requests ++
        [{ handler := h, snapshot := c.server.CurrentSnapshot, observed := [] }] }
  | .access i => { c with requests := updateAt InFlight.access i c.requests }
  | .swap newidx => { c with server := (Server.SwapIndex newidx c.server).2 }

/-- Modelled from the spec: an interleaving, step by step. -/
def Conc.run (c : Conc) (acts : List ConcAction) : Conc :=
  acts.foldl Conc.step c

/-! ## Projections of a trace -/

/-- The indices `server.SwapIndex` was called with, in order. -/
def swapCalls (t : List Event) : List Index :=
  t.filterMap (fun ev => match ev with
    | .callSwapIndex idx => some idx
    | _ => none)

/-- The counts (entries, suites, languages) of the counts lines of the reload
loop, in order. -/
def countsLines (t : List Event) : List (Nat × Nat × Nat) :=
  t.filterMap (fun ev => match ev with
    | .log (.loadedNew e s l _) => some (e, s, l)
    | _ => none)

/-- The counts `main` reports for an index. -/
def Index.counts (idx : Index) : Nat × Nat × Nat :=
  (idx.Entries.length, idx.Suites.length, idx.Langs.length)

/-! ## Sample data and invariants -/

/-- A valid index: `ls(1)` in suite testing, language en. -/
def sampleIndex : Index :=
  { Entries := [(("ls", "1"),
      [{ Name := "ls", Section := "1", Suite := "testing", Language := "en",
         URL := "/testing/coreutils/ls.1.en.html" }])],
    Suites := ["testing", "stable"], DefaultSuite := "testing",
    Langs := ["en"], DefaultLang := "en" }

/-- A second valid index, with two entries. -/
def sampleIndex2 : Index :=
  { Entries := [(("ls", "1"),
      [{ Name := "ls", Section := "1", Suite := "testing", Language := "en",
         URL := "/testing/coreutils/ls.1.en.html" }]),
      (("lsof", "8"),
      [{ Name := "lsof", Section := "8", Suite := "stable", Language := "en",
         URL := "/stable/lsof/lsof.8.en.html" }])],
    Suites := ["testing", "stable"], DefaultSuite := "testing",
    Langs := ["en"], DefaultLang := "en" }

/-- An index that breaks an invariant of section 3: the suite of its entry is
not in its suite list. -/
def brokenIndex : Index :=
  { Entries := [(("ls", "1"),
      [{ Name := "ls", Section := "1", Suite := "unstable", Language := "en",
         URL := "/unstable/coreutils/ls.1.en.html" }])],
    Suites := ["testing", "stable"], DefaultSuite := "testing",
    Langs := ["en"], DefaultLang := "en" }

/-- A `SwapIndex` that rejects every index and leaves the server as it is. -/
def rejectingSwap (_ : Index) (s : Unit) : Option Error × Unit :=
  (some "rejected", s)

/-- An environment in which every startup call succeeds and the listener
keeps serving. -/
def goodEnv : StartupEnv :=
  { inject := none, load := .ok sampleIndex, commonTmplsOk := true, notFoundTmplOk := true,
    basePath := "", listen := none }

/-- The operations in progress that go with a position of the worker. -/
def Worker.ops : Worker → List Op
  | .recv => []
  | .loading => [Op.load]
  | .swapping newidx => [Op.swap newidx]

/-- The invariant of the reload path: the channel holds at most `chanCap`
signals and what is in progress is what the one worker is doing. -/
def ReloadPath.Inv {σ : Type} (s : ReloadPath σ) : Prop :=
  s.chan.length ≤ chanCap ∧ s.running = s.worker.ops

/-- Three triggers arrive while the worker is busy with the first. -/
def busySchedule : List Action :=
  [.trigger, .recv, .trigger, .trigger, .trigger, .loadReturn (.ok sampleIndex2)]

/-- The state after `busySchedule`: one trigger pending, one swap in progress. -/
def busyState : ReloadPath Server :=
  { chan := [()], worker := .swapping sampleIndex2, running := [Op.swap sampleIndex2],
    server := NewServer sampleIndex }

/-- Every request in flight holds a snapshot out of `S` and has observed
nothing but that snapshot. -/
def Conc.Inv (S : List (Index × Nat)) (c : Conc) : Prop :=
  ∀ q ∈ c.requests, q.snapshot ∈ S ∧ ∀ o ∈ q.observed, o = q.snapshot

/-- A schedule before the swap: a jump request starts and reads once. -/
def preSwap : List ConcAction :=
  [.start .HandleJump, .access 0]

/-- A schedule after the swap: the jump request reads on, a suggest request
starts and reads. -/
def postSwap : List ConcAction :=
  [.access 0, .start .HandleSuggest, .access 1, .access 0]

/-- The jump request of `preSwap` after `postSwap`: three reads of the old index. -/
def straddling : InFlight :=
  { handler := .HandleJump, snapshot := (sampleIndex, 0),
    observed := [(sampleIndex, 0), (sampleIndex, 0), (sampleIndex, 0)] }

/-! ## The reload loop: one iteration -/

theorem reloadBody_load_error {σ : Type} (indexPath : String)
    (swapIndex : Index → σ → Option Error × σ) (err : Error) (server : σ) :
    reloadBody indexPath swapIndex (.error err) server =
      (server, [Event.log .sighupReceived, Event.callIndexFromProto indexPath,
        Event.log (.couldNotLoad indexPath err)], Ctl.cont) := by
  rfl

theorem reloadBody_swap_rejected {σ : Type} (indexPath : String)
    (swapIndex : Index → σ → Option Error × σ) (newidx : Index) (server server1 : σ)
    (err : Error) (h : swapIndex newidx server = (some err, server1)) :
    reloadBody indexPath swapIndex (.ok newidx) server =
      (server1, [Event.log .sighupReceived, Event.callIndexFromProto indexPath,
        Event.log (.loadedNew newidx.Entries.length newidx.Suites.length newidx.Langs.length
          indexPath),
        Event.callSwapIndex newidx, Event.log (.swapFailed err)], Ctl.cont) := by
  simp [reloadBody, h]

theorem reloadBody_swap_ok {σ : Type} (indexPath : String)
    (swapIndex : Index → σ → Option Error × σ) (newidx : Index) (server server1 : σ)
    (h : swapIndex newidx server = (none, server1)) :
    reloadBody indexPath swapIndex (.ok newidx) server =
      (server1, [Event.log .sighupReceived, Event.callIndexFromProto indexPath,
        Event.log (.loadedNew newidx.Entries.length newidx.Suites.length newidx.Langs.length
          indexPath),
        Event.callSwapIndex newidx, Event.log .indexSwapped, Event.freeOSMemory],
        Ctl.bodyEnd) := by
  simp [reloadBody, h]

/-- The three ways an iteration can go, with its exact result. -/
theorem reloadBody_cases {σ : Type} (indexPath : String)
    (swapIndex : Index → σ → Option Error × σ) (load : Except Error Index) (server : σ) :
    (∃ err, load = .error err ∧
      reloadBody indexPath swapIndex load server =
        (server, [Event.log .sighupReceived, Event.callIndexFromProto indexPath,
          Event.log (.couldNotLoad indexPath err)], Ctl.cont)) ∨
    (∃ newidx err server1, load = .ok newidx ∧ swapIndex newidx server = (some err, server1) ∧
      reloadBody indexPath swapIndex load server =
        (server1, [Event.log .sighupReceived, Event.callIndexFromProto indexPath,
          Event.log (.loadedNew newidx.Entries.length newidx.Suites.length newidx.Langs.length
            indexPath),
          Event.callSwapIndex newidx, Event.log (.swapFailed err)], Ctl.cont)) ∨
    (∃ newidx server1, load = .ok newidx ∧ swapIndex newidx server = (none, server1) ∧
      reloadBody indexPath swapIndex load server =
        (server1, [Event.log .sighupReceived, Event.callIndexFromProto indexPath,
          Event.log (.loadedNew newidx.Entries.length newidx.Suites.length newidx.Langs.length
            indexPath),
          Event.callSwapIndex newidx, Event.log .indexSwapped, Event.freeOSMemory],
          Ctl.bodyEnd)) := by
  cases load with
  | error err => exact Or.inl ⟨err, rfl, rfl⟩
  | ok newidx =>
    right
    rcases hs : swapIndex newidx server with ⟨e, server1⟩
    cases e with
    | some err =>
      exact Or.inl ⟨newidx, err, server1, rfl, hs, reloadBody_swap_rejected _ _ _ _ _ _ hs⟩
    | none =>
      exact Or.inr ⟨newidx, server1, rfl, hs, reloadBody_swap_ok _ _ _ _ _ hs⟩

/-- The loop goes on after every iteration: it unfolds to the iteration
followed by the loop on the remaining triggers. -/
theorem reloadLoop_cons {σ : Type} (indexPath : String)
    (swapIndex : Index → σ → Option Error × σ) (load : Except Error Index)
    (rest : List (Except Error Index)) (server : σ) :
    reloadLoop indexPath swapIndex (load :: rest) server =
      { server := (reloadLoop indexPath swapIndex rest
          (reloadBody indexPath swapIndex load server).1).server,
        trace := (reloadBody indexPath swapIndex load server).2.1 ++
          (reloadLoop indexPath swapIndex rest
            (reloadBody indexPath swapIndex load server).1).trace,
        status := (reloadLoop indexPath swapIndex rest
          (reloadBody indexPath swapIndex load server).1).status } := by
  rcases reloadBody_cases indexPath swapIndex load server with
    ⟨err, _, h⟩ | ⟨newidx, err, server1, _, _, h⟩ | ⟨newidx, server1, _, _, h⟩ <;>
  · rw [reloadLoop, h]

theorem valid_SwapIndex (newidx : Index) (s : Server) (h : newidx.valid = true) :
    Server.SwapIndex newidx s = (none, { active := newidx, epoch := s.epoch + 1 }) := by
  simp [Server.SwapIndex, h]

theorem rejected_SwapIndex (newidx : Index) (s s1 : Server) (err : Error)
    (h : Server.SwapIndex newidx s = (some err, s1)) : s1 = s := by
  unfold Server.SwapIndex at h
  split_ifs at h
  · simp at h
  · simp at h
    exact h.2.symm

/-! ## The reload loop: the claims about one iteration -/

/-- C1: in an iteration of the reload loop whose `redirect.IndexFromProto`
returns an error, `server.SwapIndex` is not called, the server after the
iteration is the server before it whatever `SwapIndex` would do, the iteration
consists of the load attempt and two log lines, ends with `continue`, and the
loop goes on with the unchanged server. -/
theorem reload_load_error_keeps_server {σ : Type} (indexPath : String)
    (swapIndex : Index → σ → Option Error × σ) (err : Error) (server : σ)
    (rest : List (Except Error Index)) :
    (reloadBody indexPath swapIndex (.error err) server).1 = server ∧
    (∀ ev ∈ (reloadBody indexPath swapIndex (.error err) server).2.1, ev.isSwapCall = false) ∧
    swapCalls (reloadBody indexPath swapIndex (.error err) server).2.1 = [] ∧
    (∀ ev ∈ (reloadBody indexPath swapIndex (.error err) server).2.1,
      ev.isLog = true ∨ ev = Event.callIndexFromProto indexPath) ∧
    (reloadBody indexPath swapIndex (.error err) server).2.2 = Ctl.cont ∧
    (reloadLoop indexPath swapIndex (.error err :: rest) server).server =
      (reloadLoop indexPath swapIndex rest server).server ∧
    (reloadLoop indexPath swapIndex (.error err :: rest) server).status =
      (reloadLoop indexPath swapIndex rest server).status := by
  rw [reloadLoop_cons, reloadBody_load_error]
  refine ⟨rfl, ?_, rfl, ?_, rfl, rfl, rfl⟩
  · intro ev hev
    simp at hev
    rcases hev with h | h | h <;> subst h <;> rfl
  · intro ev hev
    simp at hev
    rcases hev with h | h | h <;> subst h <;> simp [Event.isLog]

/-- C2: in an iteration whose load succeeds and whose `server.SwapIndex`
returns an error, the active index and the epoch after the iteration are
those before it; the iteration calls `SwapIndex` once, with the loaded index,
and does nothing else to the server; after the rejected swap it emits one log
line and nothing more, and `debug.FreeOSMemory` is not called. -/
theorem reload_swap_rejected_keeps_index (indexPath : String) (newidx : Index)
    (server server1 : Server) (err : Error)
    (hrej : Server.SwapIndex newidx server = (some err, server1)) :
    (reloadBody indexPath Server.SwapIndex (.ok newidx) server).1.active = server.active ∧
    (reloadBody indexPath Server.SwapIndex (.ok newidx) server).1.epoch = server.epoch ∧
    (reloadBody indexPath Server.SwapIndex (.ok newidx) server).1 = server ∧
    (reloadBody indexPath Server.SwapIndex (.ok newidx) server).2.1 =
      [Event.log .sighupReceived, Event.callIndexFromProto indexPath,
        Event.log (.loadedNew newidx.Entries.length newidx.Suites.length newidx.Langs.length
          indexPath),
        Event.callSwapIndex newidx, Event.log (.swapFailed err)] ∧
    swapCalls (reloadBody indexPath Server.SwapIndex (.ok newidx) server).2.1 = [newidx] ∧
    Event.freeOSMemory ∉ (reloadBody indexPath Server.SwapIndex (.ok newidx) server).2.1 ∧
    (reloadBody indexPath Server.SwapIndex (.ok newidx) server).2.2 = Ctl.cont := by
  have hs : server1 = server := rejected_SwapIndex newidx server server1 err hrej
  subst hs
  rw [reloadBody_swap_rejected indexPath Server.SwapIndex newidx server1 server1 err hrej]
  refine ⟨rfl, rfl, rfl, rfl, rfl, ?_, rfl⟩
  simp

/-- Witness of C2: the broken index is rejected by the server that holds the
sample index. -/
theorem reload_swap_rejected_keeps_index_witness :
    Server.SwapIndex brokenIndex (NewServer sampleIndex) =
      (some "RejectedError", NewServer sampleIndex) ∧
    (reloadBody "/srv/man/auxserver.idx" Server.SwapIndex (.ok brokenIndex)
      (NewServer sampleIndex)).1 = NewServer sampleIndex :=
  ⟨by decide,
   (reload_swap_rejected_keeps_index "/srv/man/auxserver.idx" brokenIndex
      (NewServer sampleIndex) (NewServer sampleIndex) "RejectedError" (by decide)).2.2.1⟩

/-- C10, as stated, fails: an iteration whose load succeeds and whose swap is
rejected emits the counts line all the same. -/
theorem counts_line_on_rejected_swap :
    (rejectingSwap sampleIndex ()).1 = some "rejected" ∧
    (reloadBody "/srv/man/auxserver.idx" rejectingSwap (.ok sampleIndex) ()).2.1 =
      [Event.log .sighupReceived, Event.callIndexFromProto "/srv/man/auxserver.idx",
        Event.log (.loadedNew 1 2 1 "/srv/man/auxserver.idx"),
        Event.callSwapIndex sampleIndex, Event.log (.swapFailed "rejected")] ∧
    countsLines (reloadBody "/srv/man/auxserver.idx" rejectingSwap (.ok sampleIndex) ()).2.1 =
      [(1, 2, 1)] ∧
    ¬ (((reloadBody "/srv/man/auxserver.idx" rejectingSwap (.ok sampleIndex) ()).2.1.filter
        Event.isCountsLine).length = 1 ↔ (rejectingSwap sampleIndex ()).1 = none) := by
  decide

/-- C10 amended: the counts line belongs to the load, not to the swap. An
iteration whose load fails emits no counts line; an iteration whose load
succeeds emits it exactly once, with the counts of the loaded index and before
`server.SwapIndex` is called, whether the swap then succeeds or is rejected. -/
theorem counts_line_iff_load_ok {σ : Type} (indexPath : String)
    (swapIndex : Index → σ → Option Error × σ) (server : σ) :
    (∀ err, countsLines (reloadBody indexPath swapIndex (.error err) server).2.1 = [] ∧
      (reloadBody indexPath swapIndex (.error err) server).2.1.filter Event.isCountsLine = []) ∧
    (∀ newidx,
      countsLines (reloadBody indexPath swapIndex (.ok newidx) server).2.1 = [newidx.counts] ∧
      (reloadBody indexPath swapIndex (.ok newidx) server).2.1.filter Event.isCountsLine =
        [Event.log (.loadedNew newidx.Entries.length newidx.Suites.length newidx.Langs.length
          indexPath)] ∧
      ∃ after, (reloadBody indexPath swapIndex (.ok newidx) server).2.1 =
        [Event.log .sighupReceived, Event.callIndexFromProto indexPath,
          Event.log (.loadedNew newidx.Entries.length newidx.Suites.length newidx.Langs.length
            indexPath),
          Event.callSwapIndex newidx] ++ after ∧
        ∀ ev ∈ after, ev.isCountsLine = false) := by
  refine ⟨fun err => ⟨rfl, rfl⟩, fun newidx => ?_⟩
  rcases reloadBody_cases indexPath swapIndex (.ok newidx) server with
    ⟨err, h, _⟩ | ⟨n, err, server1, hn, _, h⟩ | ⟨n, server1, hn, _, h⟩
  · cases h
  · cases hn
    rw [h]
    refine ⟨rfl, rfl, [Event.log (.swapFailed err)], rfl, ?_⟩
    intro ev hev
    simp at hev
    subst hev
    rfl
  · cases hn
    rw [h]
    refine ⟨rfl, rfl, [Event.log .indexSwapped, Event.freeOSMemory], rfl, ?_⟩
    intro ev hev
    simp at hev
    rcases hev with h | h <;> subst h <;> rfl

/-! ## The reload loop: sequences of triggers -/

theorem reloadBody_no_exit {σ : Type} (indexPath : String)
    (swapIndex : Index → σ → Option Error × σ) (load : Except Error Index) (server : σ) :
    ∀ ev ∈ (reloadBody indexPath swapIndex load server).2.1, ev.isExit = false := by
  rcases reloadBody_cases indexPath swapIndex load server with
    ⟨err, _, h⟩ | ⟨newidx, err, server1, _, _, h⟩ | ⟨newidx, server1, _, _, h⟩ <;>
  · rw [h]
    simp [Event.isExit]

theorem reloadBody_one_load {σ : Type} (indexPath : String)
    (swapIndex : Index → σ → Option Error × σ) (load : Except Error Index) (server : σ) :
    ((reloadBody indexPath swapIndex load server).2.1.filter Event.isLoadCall).length = 1 := by
  rcases reloadBody_cases indexPath swapIndex load server with
    ⟨err, _, h⟩ | ⟨newidx, err, server1, _, _, h⟩ | ⟨newidx, server1, _, _, h⟩ <;>
  · rw [h]
    rfl

/-- C4: for every sequence of triggers delivered to the reload loop, whatever
each load returns and whatever `SwapIndex` does, the loop ends neither the
process nor itself: after the last trigger the goroutine waits in `range c`,
no event of its trace is a `log.Fatal` or a panic, and `IndexFromProto` was
called once per trigger, so that every trigger after a failed reload is
processed too. -/
theorem reload_loop_never_exits {σ : Type} (indexPath : String)
    (swapIndex : Index → σ → Option Error × σ) (loads : List (Except Error Index))
    (server : σ) :
    (reloadLoop indexPath swapIndex loads server).status = LoopStatus.waiting ∧
    (∀ ev ∈ (reloadLoop indexPath swapIndex loads server).trace, ev.isExit = false) ∧
    ((reloadLoop indexPath swapIndex loads server).trace.filter Event.isLoadCall).length =
      loads.length ∧
    ((reloadLoop indexPath swapIndex loads server).trace.filter
      (fun ev => decide (ev = Event.log .sighupReceived))).length = loads.length := by
  induction loads generalizing server with
  | nil => simp [reloadLoop]
  | cons load rest ih =>
    rw [reloadLoop_cons]
    obtain ⟨h1, h2, h3, h4⟩ := ih (reloadBody indexPath swapIndex load server).1
    refine ⟨h1, ?_, ?_, ?_⟩
    · intro ev hev
      rcases List.mem_append.mp hev with h | h
      · exact reloadBody_no_exit indexPath swapIndex load server ev h
      · exact h2 ev h
    · simp only [List.filter_append, List.length_append, List.length_cons]
      rw [h3, reloadBody_one_load]
      omega
    · simp only [List.filter_append, List.length_append, List.length_cons]
      rw [h4]
      rcases reloadBody_cases indexPath swapIndex load server with
        ⟨err, _, h⟩ | ⟨newidx, err, server1, _, _, h⟩ | ⟨newidx, server1, _, _, h⟩ <;>
      · rw [h]
        simp
        omega

/-- C5: over `n` triggers whose loads all succeed and whose indices are all
accepted by `SwapIndex`, `SwapIndex` is called `n` times, once per trigger and
with exactly the index that trigger's load returned; the epoch grows by `n`,
one per reload; the counts lines are the counts of the loaded indices in
order, so two successive reloads that load equal indices report the same
counts. -/
theorem reload_all_ok (indexPath : String) (idxs : List Index) (server : Server)
    (hvalid : ∀ idx ∈ idxs, idx.valid = true) :
    swapCalls (reloadLoop indexPath Server.SwapIndex (idxs.map .ok) server).trace = idxs ∧
    (swapCalls (reloadLoop indexPath Server.SwapIndex (idxs.map .ok) server).trace).length =
      idxs.length ∧
    (reloadLoop indexPath Server.SwapIndex (idxs.map .ok) server).server.epoch =
      server.epoch + idxs.length ∧
    (reloadLoop indexPath Server.SwapIndex (idxs.map .ok) server).server.active =
      idxs.getLastD server.active ∧
    countsLines (reloadLoop indexPath Server.SwapIndex (idxs.map .ok) server).trace =
      idxs.map Index.counts ∧
    (∀ i, idxs[i]? = idxs[i + 1]? →
      (countsLines (reloadLoop indexPath Server.SwapIndex (idxs.map .ok) server).trace)[i]? =
      (countsLines (reloadLoop indexPath Server.SwapIndex (idxs.map .ok) server).trace)[i + 1]?)
    := by
  have key : ∀ (idxs : List Index) (server : Server), (∀ idx ∈ idxs, idx.valid = true) →
      swapCalls (reloadLoop indexPath Server.SwapIndex (idxs.map .ok) server).trace = idxs ∧
      (reloadLoop indexPath Server.SwapIndex (idxs.map .ok) server).server.epoch =
        server.epoch + idxs.length ∧
      (reloadLoop indexPath Server.SwapIndex (idxs.map .ok) server).server.active =
        idxs.getLastD server.active ∧
      countsLines (reloadLoop indexPath Server.SwapIndex (idxs.map .ok) server).trace =
        idxs.map Index.counts := by
    intro idxs
    induction idxs with
    | nil => intro server _; simp [reloadLoop, swapCalls, countsLines]
    | cons idx rest ih =>
      intro server hv
      have hidx : idx.valid = true := hv idx (List.mem_cons_self _ _)
      have hrest : ∀ i ∈ rest, i.valid = true := fun i hi => hv i (List.mem_cons_of_mem _ hi)
      rw [List.map_cons, reloadLoop_cons,
        reloadBody_swap_ok indexPath Server.SwapIndex idx server _ (valid_SwapIndex idx server hidx)]
      obtain ⟨h1, h2, h3, h4⟩ := ih { active := idx, epoch := server.epoch + 1 } hrest
      refine ⟨?_, ?_, ?_, ?_⟩
      · simp only [swapCalls, List.filterMap_append] at h1 ⊢
        rw [h1]
        rfl
      · simp only [h2, List.length_cons]
        omega
      · simp only [h3]
        cases rest <;> rfl
      · simp only [countsLines, List.filterMap_append] at h4 ⊢
        rw [h4]
        rfl
  obtain ⟨h1, h2, h3, h4⟩ := key idxs server hvalid
  refine ⟨h1, by rw [h1], h2, h3, h4, ?_⟩
  intro i hi
  rw [h4, List.getElem?_map, List.getElem?_map, hi]

/-- Witness of C5: two reloads of the same valid index. -/
theorem reload_all_ok_witness :
    swapCalls (reloadLoop "/srv/man/auxserver.idx" Server.SwapIndex
      ([sampleIndex2, sampleIndex2].map .ok) (NewServer sampleIndex)).trace =
        [sampleIndex2, sampleIndex2] ∧
    (reloadLoop "/srv/man/auxserver.idx" Server.SwapIndex
      ([sampleIndex2, sampleIndex2].map .ok) (NewServer sampleIndex)).server.epoch = 2 ∧
    countsLines (reloadLoop "/srv/man/auxserver.idx" Server.SwapIndex
      ([sampleIndex2, sampleIndex2].map .ok) (NewServer sampleIndex)).trace =
        [(2, 2, 1), (2, 2, 1)] :=
  have h := reload_all_ok "/srv/man/auxserver.idx" [sampleIndex2, sampleIndex2]
    (NewServer sampleIndex) (by decide)
  ⟨h.1, h.2.2.1, h.2.2.2.2.1⟩

/-! ## The startup sequence -/

/-- C3: when `redirect.IndexFromProto` fails at startup, `main` ends the
process with `log.Fatal` and its trace holds no server construction, no signal
registration, no start of the reload goroutine, no handler registration and no
listener; when `http.ListenAndServe` returns an error, `main` ends the process
with `log.Fatal` of that error; and whenever the listener is started or the
process serves, the index load had succeeded and the server was built from the
loaded index. -/
theorem startup_failure_is_fatal (f : Flags) (env : StartupEnv) :
    (∀ err, env.load = .error err →
      (main f env).2 = Outcome.fatalExit ∧
      (∀ ev ∈ (main f env).1, ev.needsIndex = false) ∧
      ((f.injectAssets = "" ∨ env.inject = none) →
        (main f env).1.getLast? = some (Event.fatal err))) ∧
    (∀ err, env.listen = some err → Event.callListenAndServe f.listenAddr ∈ (main f env).1 →
      (main f env).1.getLast? = some (Event.fatal err) ∧ (main f env).2 = Outcome.fatalExit) ∧
    (((∃ ev ∈ (main f env).1, ev.isListen = true) ∨ (main f env).2 = Outcome.serving) →
      ∃ idx, env.load = .ok idx ∧ Event.callNewServer idx ∈ (main f env).1) := by
  obtain ⟨inject, load, c, n, bp, listen⟩ := env
  refine ⟨?_, ?_, ?_⟩
  · intro err hload
    simp only at hload
    subst hload
    by_cases hi : f.injectAssets = ""
    · simp [main, mainLoad, hi, Event.needsIndex]
    · cases inject <;> simp [main, mainLoad, hi, Event.needsIndex]
  · intro err hlisten
    simp only at hlisten
    subst hlisten
    by_cases hi : f.injectAssets = "" <;> cases inject <;> cases load <;> cases c <;> cases n <;>
      simp [main, mainLoad, mainServer, mainListen, hi]
  · by_cases hi : f.injectAssets = "" <;> cases inject <;> cases load <;> cases c <;> cases n <;>
      cases listen <;>
      simp [main, mainLoad, mainServer, mainListen, hi, Event.isListen]

/-- Witness of C3: with the default flags and an index that cannot be read,
`main` logs, calls the loader and dies. -/
theorem startup_failure_is_fatal_witness :
    main {} { goodEnv with load := .error "open /srv/man/auxserver.idx: no such file" } =
      ([Event.log (.loadingIndex "/srv/man/auxserver.idx"),
        Event.callIndexFromProto "/srv/man/auxserver.idx",
        Event.fatal "open /srv/man/auxserver.idx: no such file"], Outcome.fatalExit) ∧
    (∀ ev ∈ (main {} { goodEnv with
        load := .error "open /srv/man/auxserver.idx: no such file" }).1,
      ev.needsIndex = false) :=
  ⟨by decide,
   ((startup_failure_is_fatal {} { goodEnv with
      load := .error "open /srv/man/auxserver.idx: no such file" }).1
      "open /srv/man/auxserver.idx: no such file" rfl).2.1⟩

/-- C9: with a non-empty `inject_assets`, `bundled.Inject` is called on that
directory right after the first log line and only there, before every read of a
bundled asset and before the listener; when it fails the process ends with
`log.Fatal` and nothing else happens, so every asset read and the listener
come after an `Inject` that returned without error. With an empty
`inject_assets`, `Inject` is never called. -/
theorem inject_before_assets (f : Flags) (env : StartupEnv) :
    (f.injectAssets ≠ "" →
      ∃ rest, (main f env).1 =
          [Event.log (.loadingIndex f.indexPath), Event.callInject f.injectAssets] ++ rest ∧
        (∀ ev ∈ rest, ev.isInject = false) ∧
        (∀ err, env.inject = some err →
          rest = [Event.fatal err] ∧ (main f env).2 = Outcome.fatalExit) ∧
        ((∃ ev ∈ rest, ev.readsAsset = true ∨ ev.isListen = true) → env.inject = none)) ∧
    (f.injectAssets = "" → ∀ ev ∈ (main f env).1, ev.isInject = false) := by
  obtain ⟨inject, load, c, n, bp, listen⟩ := env
  refine ⟨?_, ?_⟩
  · intro hi
    cases inject with
    | some err =>
      refine ⟨[Event.fatal err], ?_, ?_, ?_, ?_⟩
      · simp [main, hi]
      · simp [Event.isInject]
      · intro e he
        simp only [Option.some.injEq] at he
        subst he
        simp [main, hi]
      · simp [Event.readsAsset, Event.isListen]
    | none =>
      refine ⟨((main f ⟨none, load, c, n, bp, listen⟩).1.drop 2), ?_, ?_, ?_, ?_⟩
      · cases load <;> cases c <;> cases n <;> cases listen <;>
          simp [main, mainLoad, mainServer, mainListen, hi]
      · cases load <;> cases c <;> cases n <;> cases listen <;>
          simp [main, mainLoad, mainServer, mainListen, hi, Event.isInject]
      · intro e he
        simp at he
      · intro _
        rfl
  · intro hi
    cases load <;> cases c <;> cases n <;> cases listen <;>
      simp [main, mainLoad, mainServer, mainListen, hi, Event.isInject]

/-- Witness of C9: with `-inject_assets=/srv/assets` and every call
succeeding, the trace of `main` up to the listener. -/
theorem inject_before_assets_witness :
    (main { injectAssets := "/srv/assets" } goodEnv).1 =
      [Event.log (.loadingIndex "/srv/man/auxserver.idx"), Event.callInject "/srv/assets",
        Event.callIndexFromProto "/srv/man/auxserver.idx",
        Event.callMustParseCommonTmpls, Event.callAsset "notfound.tmpl",
        Event.callNewServer sampleIndex, Event.signalNotify 1, Event.goReloadLoop,
        Event.callBaseURLPath,
        Event.handleFunc "/jump" .HandleJump, Event.handleFunc "/suggest" .HandleSuggest,
        Event.handleFunc "/" .HandleRedirect, Event.httpHandle "/" "",
        Event.log (.loaded 1 2 1 "/srv/man/auxserver.idx"),
        Event.log (.startingListener "localhost:2431"),
        Event.callListenAndServe "localhost:2431"] ∧
    (∃ rest, (main { injectAssets := "/srv/assets" } goodEnv).1 =
        [Event.log (.loadingIndex "/srv/man/auxserver.idx"), Event.callInject "/srv/assets"]
          ++ rest ∧
      (∀ ev ∈ rest, ev.isInject = false)) :=
  ⟨by decide,
   let ⟨rest, h1, h2, _⟩ :=
     (inject_before_assets { injectAssets := "/srv/assets" } goodEnv).1 (by decide)
   ⟨rest, h1, h2⟩⟩

/-! ## The reload path: at most one pending, at most one running -/

theorem ReloadPath.inv_init {σ : Type} (server : σ) : (ReloadPath.init server).Inv := by
  simp [ReloadPath.Inv, ReloadPath.init, Worker.ops, chanCap]

theorem ReloadPath.inv_step {σ : Type} (swapIndex : Index → σ → Option Error × σ)
    (s s1 : ReloadPath σ) (a : Action) (hinv : s.Inv) (hstep : s.step swapIndex a = some s1) :
    s1.Inv := by
  obtain ⟨hchan, hrun⟩ := hinv
  cases a with
  | trigger =>
    simp only [ReloadPath.step] at hstep
    split_ifs at hstep with hlt
    · cases hstep
      refine ⟨?_, hrun⟩
      simp only [List.length_append, List.length_singleton]
      omega
    · cases hstep
      exact ⟨hchan, hrun⟩
  | recv =>
    simp only [ReloadPath.step] at hstep
    split at hstep
    · next hw hc =>
      cases hstep
      refine ⟨?_, ?_⟩
      · simp only [hc, List.length_cons] at hchan
        simp only
        omega
      · simp only [hrun, hw, Worker.ops]
    · cases hstep
  | loadReturn res =>
    simp only [ReloadPath.step] at hstep
    split at hstep
    · next hw =>
      cases res with
      | error err =>
        cases hstep
        exact ⟨hchan, by simp [hrun, hw, Worker.ops]⟩
      | ok newidx =>
        cases hstep
        exact ⟨hchan, by simp [hrun, hw, Worker.ops]⟩
    · cases hstep
  | swapReturn =>
    simp only [ReloadPath.step] at hstep
    split at hstep
    · next newidx hw =>
      cases hstep
      exact ⟨hchan, by simp [hrun, hw, Worker.ops]⟩
    · cases hstep

theorem ReloadPath.inv_exec {σ : Type} (swapIndex : Index → σ → Option Error × σ)
    (acts : List Action) (s s1 : ReloadPath σ) (hinv : s.Inv)
    (hexec : ReloadPath.exec swapIndex s acts = some s1) : s1.Inv := by
  induction acts generalizing s with
  | nil =>
    simp only [ReloadPath.exec, Option.some.injEq] at hexec
    subst hexec
    exact hinv
  | cons a rest ih =>
    simp only [ReloadPath.exec] at hexec
    cases hs : s.step swapIndex a with
    | none => simp [hs] at hexec
    | some s2 =>
      simp only [hs, Option.some_bind] at hexec
      exact ih s2 (ReloadPath.inv_step swapIndex s s2 a hinv hs) hexec

/-- C7: every state the reload path reaches from its start has at most one
pending reload in the channel and at most one load or swap in progress, and
what is in progress is a single load or a single swap of the one worker; a
trigger arriving while one is pending changes nothing (it is dropped). -/
theorem reload_path_serialized {σ : Type} (swapIndex : Index → σ → Option Error × σ)
    (server : σ) (acts : List Action) (s : ReloadPath σ)
    (hreach : ReloadPath.exec swapIndex (ReloadPath.init server) acts = some s) :
    s.chan.length ≤ 1 ∧ s.running.length ≤ 1 ∧
    (s.worker = Worker.recv ↔ s.running = []) ∧
    (s.chan.length = 1 → s.step swapIndex Action.trigger = some s) := by
  obtain ⟨hchan, hrun⟩ :=
    ReloadPath.inv_exec swapIndex acts _ s (ReloadPath.inv_init server) hreach
  refine ⟨hchan, ?_, ?_, ?_⟩
  · rw [hrun]
    cases s.worker <;> simp [Worker.ops]
  · rw [hrun]
    cases s.worker <;> simp [Worker.ops]
  · intro h1
    simp [ReloadPath.step, h1, chanCap]

/-- Witness of C7: of three triggers arriving while the worker is busy with
the first, one stays pending and the others are dropped, and one swap is in
progress. -/
theorem reload_path_serialized_witness :
    ReloadPath.exec Server.SwapIndex (ReloadPath.init (NewServer sampleIndex)) busySchedule =
      some busyState ∧
    busyState.chan.length ≤ 1 ∧ busyState.running.length ≤ 1 :=
  ⟨rfl,
   (reload_path_serialized Server.SwapIndex (NewServer sampleIndex) busySchedule busyState
      rfl).1,
   (reload_path_serialized Server.SwapIndex (NewServer sampleIndex) busySchedule busyState
      rfl).2.1⟩

/-! ## Requests running beside a swap -/

theorem mem_updateAt {α : Type} (f : α → α) (i : Nat) (l : List α) (y : α)
    (h : y ∈ updateAt f i l) : y ∈ l ∨ ∃ x ∈ l, y = f x := by
  induction l generalizing i with
  | nil => simp [updateAt] at h
  | cons x xs ih =>
    cases i with
    | zero =>
      simp only [updateAt, List.mem_cons] at h
      rcases h with h | h
      · exact Or.inr ⟨x, List.mem_cons_self _ _, h⟩
      · exact Or.inl (List.mem_cons_of_mem _ h)
    | succ j =>
      simp only [updateAt, List.mem_cons] at h
      rcases h with h | h
      · exact Or.inl (h ▸ List.mem_cons_self _ _)
      · rcases ih j h with h1 | ⟨z, hz, hy⟩
        · exact Or.inl (List.mem_cons_of_mem _ h1)
        · exact Or.inr ⟨z, List.mem_cons_of_mem _ hz, hy⟩

theorem Conc.inv_mono (S T : List (Index × Nat)) (c : Conc) (hsub : ∀ x ∈ S, x ∈ T)
    (h : c.Inv S) : c.Inv T :=
  fun q hq => ⟨hsub _ (h q hq).1, (h q hq).2⟩

theorem Conc.step_noSwap (S : List (Index × Nat)) (c : Conc) (a : ConcAction)
    (ha : a.isSwap = false) (hinv : c.Inv S) (hcur : c.server.CurrentSnapshot ∈ S) :
    (c.step a).Inv S ∧ (c.step a).server = c.server := by
  cases a with
  | start h =>
    refine ⟨?_, rfl⟩
    intro q hq
    simp only [Conc.step, List.mem_append, List.mem_singleton] at hq
    rcases hq with hq | hq
    · exact hinv q hq
    · subst hq
      exact ⟨hcur, by simp⟩
  | access i =>
    refine ⟨?_, rfl⟩
    intro q hq
    simp only [Conc.step] at hq
    rcases mem_updateAt _ _ _ _ hq with h1 | ⟨x, hx, hqx⟩
    · exact hinv q h1
    · subst hqx
      obtain ⟨hs, hobs⟩ := hinv x hx
      refine ⟨hs, ?_⟩
      intro o ho
      simp only [InFlight.access, List.mem_append, List.mem_singleton] at ho
      rcases ho with ho | ho
      · exact hobs o ho
      · exact ho
  | swap newidx => simp [ConcAction.isSwap] at ha

theorem Conc.run_noSwap (S : List (Index × Nat)) (acts : List ConcAction) (c : Conc)
    (hacts : ∀ a ∈ acts, a.isSwap = false) (hinv : c.Inv S)
    (hcur : c.server.CurrentSnapshot ∈ S) :
    (c.run acts).Inv S ∧ (c.run acts).server = c.server := by
  induction acts generalizing c with
  | nil => exact ⟨hinv, rfl⟩
  | cons a rest ih =>
    obtain ⟨h1, h2⟩ := Conc.step_noSwap S c a (hacts a (List.mem_cons_self _ _)) hinv hcur
    have h3 := ih (c.step a) (fun b hb => hacts b (List.mem_cons_of_mem _ hb)) h1 (by rw [h2]; exact hcur)
    simp only [Conc.run, List.foldl_cons] at h3 ⊢
    exact ⟨h3.1, h3.2.trans h2⟩

/-- C6: in every interleaving of request steps with one `SwapIndex` call of
the reload loop, started with no request in flight, all the accesses of any one
request observe the same index and epoch, and that is either the index before
the swap or the index after it. -/
theorem swap_atomicity (s0 : Server) (newidx : Index) (pre post : List ConcAction)
    (hpre : ∀ a ∈ pre, a.isSwap = false) (hpost : ∀ a ∈ post, a.isSwap = false) :
    ∀ q ∈ (Conc.run { server := s0, requests := [] }
        (pre ++ [ConcAction.swap newidx] ++ post)).requests,
      (∀ o ∈ q.observed, o = s0.CurrentSnapshot) ∨
      (∀ o ∈ q.observed, o = (Server.SwapIndex newidx s0).2.CurrentSnapshot) := by
  have h0 : (Conc.mk s0 []).Inv [s0.CurrentSnapshot] := by
    intro q hq
    simp at hq
  obtain ⟨h1, h2⟩ := Conc.run_noSwap [s0.CurrentSnapshot] pre _ hpre h0 (by simp)
  have h3 : (((Conc.mk s0 []).run pre).step (.swap newidx)).Inv
      [s0.CurrentSnapshot, (Server.SwapIndex newidx s0).2.CurrentSnapshot] := by
    apply Conc.inv_mono [s0.CurrentSnapshot]
    · intro x hx
      simp only [List.mem_singleton] at hx
      simp [hx]
    · exact h1
  have h4 : (((Conc.mk s0 []).run pre).step (.swap newidx)).server =
      (Server.SwapIndex newidx s0).2 := by
    simp [Conc.step, h2]
  obtain ⟨h5, _⟩ := Conc.run_noSwap _ post _ hpost h3 (by rw [h4]; simp)
  intro q hq
  have hrun : Conc.run { server := s0, requests := [] } (pre ++ [ConcAction.swap newidx] ++ post)
      = (((Conc.mk s0 []).run pre).step (.swap newidx)).run post := by
    simp [Conc.run, List.foldl_append]
  rw [hrun] at hq
  obtain ⟨hs, hobs⟩ := h5 q hq
  simp only [List.mem_cons, List.mem_singleton, List.not_mem_nil, or_false] at hs
  rcases hs with hs | hs
  · exact Or.inl (fun o ho => (hobs o ho).trans hs)
  · exact Or.inr (fun o ho => (hobs o ho).trans hs)

/-- Witness of C6: a jump request that straddles the swap keeps seeing the old
index, a suggest request started after the swap sees the new one. -/
theorem swap_atomicity_witness :
    (Conc.run { server := NewServer sampleIndex, requests := [] }
      (preSwap ++ [ConcAction.swap sampleIndex2] ++ postSwap)).requests =
      [straddling,
       { handler := .HandleSuggest, snapshot := (sampleIndex2, 1),
         observed := [(sampleIndex2, 1)] }] ∧
    ((∀ o ∈ straddling.observed, o = (NewServer sampleIndex).CurrentSnapshot) ∨
      (∀ o ∈ straddling.observed, o =
        (Server.SwapIndex sampleIndex2 (NewServer sampleIndex)).2.CurrentSnapshot)) :=
  ⟨by decide,
   swap_atomicity (NewServer sampleIndex) sampleIndex2 preSwap postSwap (by decide) (by decide)
     straddling (by decide)⟩

/-! ## The routing table -/

theorem Clean_rooted (t : List Char) : ∃ u, Clean ('/' :: t) = '/' :: u := by
  simp [Clean]

theorem cleanPath_rooted (q : List Char) : ∃ t, cleanPath q = '/' :: t := by
  unfold cleanPath
  by_cases hq : q = []
  · simp [hq]
  · simp only [hq, if_false]
    have hroot : ∃ t, (if q.head? ≠ some '/' then '/' :: q else q) = '/' :: t := by
      by_cases hh : q.head? = some '/'
      · cases q with
        | nil => simp at hq
        | cons c t =>
          simp at hh
          subst hh
          exact ⟨t, by simp⟩
      · exact ⟨q, by simp [hh]⟩
    obtain ⟨t, ht⟩ := hroot
    simp only [ht]
    obtain ⟨u, hu⟩ := Clean_rooted t
    simp only [hu]
    split_ifs
    · exact ⟨t, rfl⟩
    · exact ⟨u ++ ['/'], by simp⟩
    · exact ⟨u, rfl⟩

/-- A path a mux matches as it stands begins with a slash. -/
theorem Canonical.rooted {method : String} {q : List Char} (h : Canonical method q) :
    ∃ t, q = '/' :: t := by
  rcases h with ⟨_, ht⟩ | ⟨_, hc⟩
  · exact ht
  · obtain ⟨t, ht⟩ := cleanPath_rooted q
    exact ⟨t, hc ▸ ht⟩

theorem mux_es : mux.es = [("/".toList, fun _ => Response.served .HandleRedirect)] := by
  rfl

theorem mux_exact (p : List Char) :
    mux.exact p = if p = "/jump".toList then some (fun _ => Response.served .HandleJump)
      else if p = "/suggest".toList then some (fun _ => Response.served .HandleSuggest)
      else if p = "/".toList then some (fun _ => Response.served .HandleRedirect)
      else none := by
  simp only [ServeMux.exact, mux, ServeMux.Handle, NewServeMux, List.nil_append, List.cons_append,
    List.find?]
  by_cases h1 : "/jump".toList = p
  · subst h1; simp
  · have h1' : ¬ p = "/jump".toList := fun h => h1 h.symm
    by_cases h2 : "/suggest".toList = p
    · subst h2; simp
    · have h2' : ¬ p = "/suggest".toList := fun h => h2 h.symm
      by_cases h3 : "/".toList = p
      · subst h3; simp
      · have h3' : ¬ p = "/".toList := fun h => h3 h.symm
        simp at h1 h2 h3 h1' h2' h3'
        simp [h1, h2, h3, h1', h2', h3']

theorem mux_matchPath (t : List Char) :
    mux.matchPath ('/' :: t) = some (fun _ => Response.served (route ('/' :: t))) := by
  simp only [ServeMux.matchPath, mux_exact, mux_es, route]
  by_cases h1 : '/' :: t = "/jump".toList
  · simp [h1]
  · by_cases h2 : '/' :: t = "/suggest".toList
    · simp [h2]
    · by_cases h3 : '/' :: t = "/".toList
      · simp [h3]
      · simp at h1 h2 h3
        simp [h1, h2, h3, HasPrefix]

theorem mux_matchPath_none (q : List Char) (hq : ∀ t, q ≠ '/' :: t) :
    mux.matchPath q = none := by
  simp only [ServeMux.matchPath, mux_exact, mux_es]
  cases q with
  | nil => simp [HasPrefix]
  | cons c t =>
    have hc : c ≠ '/' := fun h => hq t (by rw [h])
    have hc2 : ¬ '/' = c := fun h => hc h.symm
    have hp : ['/'].isPrefixOf (c :: t) = false := by simp [List.isPrefixOf, hc2]
    simp [HasPrefix, hc, hc2, hp]

theorem mux_shouldRedirect (t : List Char) : mux.shouldRedirect ('/' :: t) = false := by
  have h : mux.exact (('/' :: t) ++ ['/']) = none := by
    rw [mux_exact]
    have e1 : ¬ ('/' :: t) ++ ['/'] = "/jump".toList := by
      intro h
      have := congrArg List.reverse h
      simp at this
    have e2 : ¬ ('/' :: t) ++ ['/'] = "/suggest".toList := by
      intro h
      have := congrArg List.reverse h
      simp at this
    have e3 : ¬ ('/' :: t) ++ ['/'] = "/".toList := by
      intro h
      have := congrArg List.length h
      simp at this
    simp only [e1, e2, e3, if_false]
  simp only [ServeMux.shouldRedirect, h]
  simp

theorem default_matchPath (basePath t : List Char) :
    (DefaultServeMux basePath).matchPath ('/' :: t) = some (StripPrefix basePath mux.ServeHTTP) := by
  have hes : (DefaultServeMux basePath).es = [("/".toList, StripPrefix basePath mux.ServeHTTP)] := by
    rfl
  simp only [ServeMux.matchPath, hes]
  simp only [ServeMux.exact, DefaultServeMux, ServeMux.Handle, NewServeMux, List.nil_append,
    List.find?]
  by_cases h : t = []
  · simp [h]
  · simp [h, HasPrefix]

theorem default_matchPath_none (basePath q : List Char) (hq : ∀ t, q ≠ '/' :: t) :
    (DefaultServeMux basePath).matchPath q = none := by
  have hes : (DefaultServeMux basePath).es = [("/".toList, StripPrefix basePath mux.ServeHTTP)] := by
    rfl
  simp only [ServeMux.matchPath, hes]
  simp only [ServeMux.exact, DefaultServeMux, ServeMux.Handle, NewServeMux, List.nil_append,
    List.find?]
  cases q with
  | nil => simp [HasPrefix]
  | cons c t =>
    have hc : c ≠ '/' := fun h => hq t (by rw [h])
    have hc2 : ¬ '/' = c := fun h => hc h.symm
    have hp : ['/'].isPrefixOf (c :: t) = false := by simp [List.isPrefixOf, hc2]
    simp [HasPrefix, hc, hc2, hp]

theorem default_shouldRedirect (basePath t : List Char) :
    (DefaultServeMux basePath).shouldRedirect ('/' :: t) = false := by
  simp [ServeMux.shouldRedirect, ServeMux.exact, DefaultServeMux, ServeMux.Handle, NewServeMux]

/-- When a mux with a catch-all pattern hands a request to a handler: the
request URI is not `*` and the path is as the mux matches it; the handler is
then the one matching the path. -/
theorem ServeHTTP_served_iff (M : ServeMux) (F : List Char → Request → Response)
    (hm : ∀ t, M.matchPath ('/' :: t) = some (F ('/' :: t)))
    (hn : ∀ q, (∀ t, q ≠ '/' :: t) → M.matchPath q = none)
    (hs : ∀ t, M.shouldRedirect ('/' :: t) = false) (r : Request) (h : Handler) :
    M.ServeHTTP r = Response.served h ↔
      r.RequestURI ≠ "*" ∧ Canonical r.Method r.Path ∧ F r.Path r = Response.served h := by
  unfold ServeMux.ServeHTTP
  by_cases hstar : r.RequestURI = "*"
  · simp [hstar]
  · simp only [hstar, if_false, ne_eq, not_false_eq_true, true_and]
    by_cases hcon : r.Method = "CONNECT"
    · simp only [hcon, if_true]
      by_cases hroot : ∃ t, r.Path = '/' :: t
      · obtain ⟨t, ht⟩ := hroot
        have hcan : Canonical "CONNECT" r.Path := Or.inl ⟨rfl, t, ht⟩
        simp only [ht, hs, hm] at hcan ⊢
        simp [hcan]
      · have hno : ∀ t, r.Path ≠ '/' :: t := fun t ht => hroot ⟨t, ht⟩
        have hcan : ¬ Canonical "CONNECT" r.Path := fun hc => hroot hc.rooted
        rw [hn r.Path hno]
        simp only [hcan, false_and, iff_false]
        split_ifs <;> simp
    · simp only [hcon, if_false]
      by_cases hclean : cleanPath r.Path = r.Path
      · obtain ⟨t, ht⟩ := cleanPath_rooted r.Path
        rw [hclean] at ht
        have hcan : Canonical r.Method r.Path := Or.inr ⟨hcon, hclean⟩
        have h1 : cleanPath ('/' :: t) = '/' :: t := by rw [← ht]; exact hclean
        simp only [ht, h1, hs, hm] at hcan ⊢
        simp [hcan]
      · have hcan : ¬ Canonical r.Method r.Path := by
          rintro (⟨hc, _⟩ | ⟨_, hc⟩)
          · exact hcon hc
          · exact hclean hc
        simp only [hcan, false_and, iff_false]
        split_ifs <;> simp

theorem TrimPrefix_append (pfx p : List Char) : TrimPrefix (pfx ++ p) pfx = p := by
  simp [TrimPrefix, HasPrefix]

theorem TrimPrefix_nil (s : List Char) : TrimPrefix s [] = s := by
  simp [TrimPrefix, HasPrefix]

theorem TrimPrefix_shorter (s pfx : List Char) (h : (TrimPrefix s pfx).length < s.length) :
    s = pfx ++ TrimPrefix s pfx := by
  unfold TrimPrefix at h ⊢
  by_cases hp : HasPrefix s pfx = true
  · simp only [hp, if_true]
    have h1 : pfx <+: s := List.isPrefixOf_iff_prefix.mp hp
    exact (List.prefix_iff_eq_append.mp h1).symm
  · simp [hp] at h

/-- When `http.StripPrefix` hands a request on: the path is the base path
followed by some `p` (and so is the raw path, when it is set and the base path
is not empty); the inner handler then sees the path `p`. -/
theorem StripPrefix_served_iff (pfx : List Char) (G : Request → Response) (r : Request)
    (h : Handler) :
    StripPrefix pfx G r = Response.served h ↔
      ∃ p, r.Path = pfx ++ p ∧ (pfx = [] ∨ r.RawPath = [] ∨ ∃ rp, r.RawPath = pfx ++ rp) ∧
        G { r with Path := p, RawPath := TrimPrefix r.RawPath pfx } = Response.served h := by
  by_cases hb : pfx = []
  · subst hb
    simp only [StripPrefix, if_true, List.nil_append, TrimPrefix_nil, true_or, true_and]
    constructor
    · intro hG
      exact ⟨r.Path, rfl, hG⟩
    · rintro ⟨p, hp, hG⟩
      subst hp
      exact hG
  · simp only [StripPrefix, hb, if_false, false_or]
    constructor
    · intro hG
      split_ifs at hG with hcond
      obtain ⟨h1, h2⟩ := hcond
      refine ⟨TrimPrefix r.Path pfx, TrimPrefix_shorter _ _ h1, ?_, hG⟩
      rcases h2 with h2 | h2
      · exact Or.inl h2
      · exact Or.inr ⟨_, TrimPrefix_shorter _ _ h2⟩
    · rintro ⟨p, hp, hraw, hG⟩
      have hlen : 0 < pfx.length := List.length_pos.mpr hb
      have htrim : TrimPrefix r.Path pfx = p := by rw [hp, TrimPrefix_append]
      have hcond : (TrimPrefix r.Path pfx).length < r.Path.length ∧
          (r.RawPath = [] ∨ (TrimPrefix r.RawPath pfx).length < r.RawPath.length) := by
        refine ⟨?_, ?_⟩
        · rw [htrim, hp, List.length_append]; omega
        · rcases hraw with h0 | ⟨rp, hrp⟩
          · exact Or.inl h0
          · right
            rw [hrp, TrimPrefix_append, List.length_append]; omega
      rw [if_pos hcond, htrim]
      exact hG

/-- C8, as stated, fails. With `base_url` set to a URL with path `/man`, the
request path `/jump` does not begin with the base path and `http.StripPrefix`
answers 404 without any of the three handlers; with the default `base_url`
(empty base path) the request path `//jump` is answered by the mux itself with
a 301 to `/jump`. So not every request path reaches one of the three handlers. -/
theorem dispatch_not_total :
    dispatch "/man".toList (GET "/jump") = Response.notFound ∧
    dispatch [] (GET "//jump") = Response.movedPermanently "/jump".toList ∧
    ¬ (∀ (basePath : List Char) (r : Request), dispatch basePath r = Response.served (route r.Path)) ∧
    ¬ (∀ (basePath : List Char) (r : Request), ∃ h, dispatch basePath r = Response.served h) := by
  refine ⟨by decide, by decide, ?_, ?_⟩
  · intro h
    exact absurd (h "/man".toList (GET "/jump")) (by decide)
  · intro h
    obtain ⟨hd, hh⟩ := h "/man".toList (GET "/jump")
    have hnf : dispatch "/man".toList (GET "/jump") = Response.notFound := by decide
    rw [hnf] at hh
    cases hh

/-- The routing table hands a request to the handler `h` exactly when the
request is routable with some rest `p` of its path and `h` is the handler the
three patterns give for `p`. -/
theorem dispatch_routable (basePath : List Char) (r : Request) (h : Handler) :
    dispatch basePath r = Response.served h ↔ ∃ p, Routable basePath r p ∧ h = route p := by
  unfold dispatch serverHandler Routable
  by_cases hopt : r.RequestURI = "*" ∧ r.Method = "OPTIONS"
  · simp [hopt]
  · rw [if_neg hopt,
      ServeHTTP_served_iff (DefaultServeMux basePath) (fun _ => StripPrefix basePath mux.ServeHTTP)
        (default_matchPath basePath) (default_matchPath_none basePath)
        (default_shouldRedirect basePath),
      StripPrefix_served_iff]
    constructor
    · rintro ⟨hstar, hcan, p, hp, hraw, hinner⟩
      rw [ServeHTTP_served_iff mux (fun q _ => Response.served (route q)) mux_matchPath
        mux_matchPath_none mux_shouldRedirect] at hinner
      obtain ⟨_, hcanp, hroute⟩ := hinner
      simp only [Response.served.injEq] at hroute
      exact ⟨p, ⟨hstar, hp, hraw, hcan, hcanp⟩, hroute.symm⟩
    · rintro ⟨p, ⟨hstar, hp, hraw, hcan, hcanp⟩, hroute⟩
      refine ⟨hstar, hcan, p, hp, hraw, ?_⟩
      rw [ServeHTTP_served_iff mux (fun q _ => Response.served (route q)) mux_matchPath
        mux_matchPath_none mux_shouldRedirect]
      exact ⟨hstar, hcanp, by rw [hroute]⟩

/-- C8 amended: for every request whose path was sent in its default encoding
(empty `URL.RawPath`), the routing table built in `main` hands the request to
the handler `h` exactly when the request URI is not `*`, the path is the base
path followed by some rest `p`, the path and `p` are both as the mux matches
them (beginning with a slash for a CONNECT request, in clean form for any
other), and `h` is the handler the three patterns give for `p`: `/jump` the
jump handler, `/suggest` the suggest handler, every other `p` the catch-all
`HandleRedirect`. Every other such request is answered without any of the
three handlers. -/
theorem dispatch_served_iff (basePath : List Char) (r : Request) (h : Handler)
    (hraw : r.RawPath = []) :
    dispatch basePath r = Response.served h ↔
      ∃ p, r.RequestURI ≠ "*" ∧ r.Path = basePath ++ p ∧
        Canonical r.Method r.Path ∧ Canonical r.Method p ∧ h = route p := by
  rw [dispatch_routable]
  constructor
  · rintro ⟨p, ⟨hstar, hp, _, hcan, hcanp⟩, hroute⟩
    exact ⟨p, hstar, hp, hcan, hcanp, hroute⟩
  · rintro ⟨p, hstar, hp, hcan, hcanp, hroute⟩
    exact ⟨p, ⟨hstar, hp, Or.inr (Or.inl hraw), hcan, hcanp⟩, hroute⟩

/-- Witness of C8 amended: under the base path `/man`, the GET request for
`/man/jump` reaches the jump handler, and only that one. -/
theorem dispatch_served_iff_witness :
    (GET "/man/jump").RawPath = [] ∧
    dispatch "/man".toList (GET "/man/jump") = Response.served Handler.HandleJump ∧
    ¬ dispatch "/man".toList (GET "/man/jump") = Response.served Handler.HandleRedirect :=
  ⟨rfl,
   (dispatch_served_iff "/man".toList (GET "/man/jump") Handler.HandleJump rfl).mpr
     ⟨"/jump".toList, by decide, by decide, Or.inr ⟨by decide, by decide⟩,
       Or.inr ⟨by decide, by decide⟩, by decide⟩,
   by decide⟩

end Debiman
